import Mathlib

/-!
Shallow embedding of `binary_operation_calculator.py`: the Lexer, the
recursive-descent Parser and the Calculator (truth-table evaluator and
label generator), together with proofs about the embedded program.

Character classes are modelled for ASCII input (Python's `str.isspace`
and `str.isalnum` restricted to ASCII), matching the program's intended
domain of boolean expressions over alphanumeric variable names.
-/

/-- Python `str.isspace` on ASCII characters. -/
def isSpaceCh (c : Char) : Bool :=
  c == ' ' || c == '\t' || c == '\n' || c == '\r' || c == '\x0b' || c == '\x0c'

/-- Membership in `Token.SINGLE_CHARACTER_TOKENS = "()!&^|"`. -/
def isSingleTok (c : Char) : Bool :=
  c == '(' || c == ')' || c == '!' || c == '&' || c == '^' || c == '|'

/-- Python `str.isalnum` on ASCII characters. -/
def isAlnumCh (c : Char) : Bool :=
  ('a' ≤ c && c ≤ 'z') || ('A' ≤ c && c ≤ 'Z') || ('0' ≤ c && c ≤ '9')

/-- A character the lexer rejects: not whitespace, not a single-character
token, not alphanumeric. -/
def badCh (c : Char) : Bool :=
  !(isSpaceCh c || isSingleTok c || isAlnumCh c)

/-- The token kinds of the `Token` class. -/
inductive TokenType
  | lparen | rparen | varT | notT | andT | xorT | orT | eof
deriving DecidableEq

/-- The Python string constant naming each token type (`Token.LPAREN` etc.),
used in syntax-error messages. -/
def typeName : TokenType → String
  | .lparen => "("
  | .rparen => ")"
  | .varT => "variable"
  | .notT => "!"
  | .andT => "&"
  | .xorT => "^"
  | .orT => "|"
  | .eof => "EOF"

/-- `Token(token_type, value)`; `value` is the variable name for VAR tokens
and empty (Python `None`) otherwise. -/
structure Token where
  type : TokenType
  value : String
deriving DecidableEq

/-- Errors raised by the program.  The Python code raises `Exception` with
an f-string message; each constructor carries exactly the data interpolated
into that message (`CalcError.message` renders it).  `noFuel` is an artifact
of the fuel-based embedding of the recursive-descent loops; it is never
produced when the fuel exceeds the input length. -/
inductive CalcError
  | lexErr (ch : Char) (pos : Nat)
  | synErr (expected : String) (pos : Nat)
  | noFuel
deriving DecidableEq

/-- The exact message string the Python code raises
(`Lexer.raise_exception`). -/
def CalcError.message : CalcError → String
  | .lexErr c p => "Invalid character `" ++ String.singleton c ++ "` in pos=" ++ toString p ++ "\n"
  | .synErr k p => "Invalid syntax, expected `" ++ k ++ "` in pos=" ++ toString p ++ "\n"
  | .noFuel => "out of fuel"

/-- The variable-gathering loop of `Lexer.get_next_token`: split off the
maximal leading run of alphanumeric characters. -/
def lexVar : List Char → List Char × List Char
  | [] => ([], [])
  | c :: cs =>
    if isAlnumCh c then
      ((c :: (lexVar cs).1), (lexVar cs).2)
    else
      ([], c :: cs)

/-- The token for a character in `SINGLE_CHARACTER_TOKENS` (reached only
under the `isSingleTok` guard, so the catch-all is `|`). -/
def singleTok (c : Char) : Token :=
  match c with
  | '(' => ⟨.lparen, ""⟩
  | ')' => ⟨.rparen, ""⟩
  | '!' => ⟨.notT, ""⟩
  | '&' => ⟨.andT, ""⟩
  | '^' => ⟨.xorT, ""⟩
  | _ => ⟨.orT, ""⟩

/-- `Lexer.get_next_token`: skip whitespace, then produce EOF at the end of
input, a single-character token, or a maximal alphanumeric VAR token;
any other character raises.  Returns the token, the remaining characters
and the new cursor position `self.pos`. -/
def nextToken : List Char → Nat → Except CalcError (Token × List Char × Nat)
  | [], p => .ok (⟨.eof, ""⟩, [], p)
  | c :: cs, p =>
    if isSpaceCh c then
      nextToken cs (p + 1)
    else if isSingleTok c then
      .ok (singleTok c, cs, p + 1)
    else if isAlnumCh c then
      .ok (⟨.varT, String.mk (lexVar (c :: cs)).1⟩,
           (lexVar (c :: cs)).2, p + (lexVar (c :: cs)).1.length)
    else
      .error (.lexErr c p)

/-- Running the Lexer to exhaustion: call `get_next_token` until EOF.
Fuel-based; `chars.length + 1` fuel always suffices since every non-EOF
token consumes at least one character. -/
def tokenizeAll : Nat → List Char → Nat → Except CalcError (List Token)
  | 0, _, _ => .error .noFuel
  | fuel + 1, cs, p =>
    match nextToken cs p with
    | .error e => .error e
    | .ok (t, rest, q) =>
      if t.type = .eof then
        .ok [t]
      else
        (tokenizeAll fuel rest q).map (fun ts => t :: ts)

/-- Lex a whole input string. -/
def tokenizeText (text : String) : Except CalcError (List Token) :=
  tokenizeAll (text.data.length + 1) text.data 0

/-- The binary operator tags (held as `operator.and_`/`xor`/`or_` plus the
operator token in `BinaryOperator`). -/
inductive BOp
  | andB | xorB | orB
deriving DecidableEq

/-- `node.token.type` for a binary operator node: the operator symbol. -/
def opSym : BOp → String
  | .andB => "&"
  | .xorB => "^"
  | .orB => "|"

/-- The AST.  `binary` models `BinaryOperator` (operator tag, left child,
right child); `unary` models `UnaryOperator` (whose operator is always
`not_`); `varA` models `Variable` (token value and first-seen id). -/
inductive AST
  | binary (op : BOp) (left : AST) (right : AST)
  | unary (expr : AST)
  | varA (name : String) (id : Nat)
deriving DecidableEq

/-- Number of internal (unary or binary) nodes of a tree. -/
def internalCount : AST → Nat
  | .binary _ l r => internalCount l + internalCount r + 1
  | .unary e => internalCount e + 1
  | .varA _ _ => 0

/-- Parser state: the lexer's remaining input and cursor, the one-token
lookahead `current_token`, and the keys of the `variables` dict in
insertion order. -/
structure PState where
  chars : List Char
  pos : Nat
  cur : Token
  vars : List String
deriving DecidableEq

/-- Index of a name in the variable registry, if present. -/
def varIndex : List String → String → Option Nat
  | [], _ => none
  | v :: vs, name => if v = name then some 0 else (varIndex vs name).map (· + 1)

/-- `dict.setdefault(name, len(dict))`: the id of `name`, inserting it with
the next id when absent. -/
def setdefault (vars : List String) (name : String) : Nat × List String :=
  match varIndex vars name with
  | some i => (i, vars)
  | none => (vars.length, vars ++ [name])

/-- `Parser.eat_token`: check the lookahead's type and advance, else raise
`Invalid syntax, expected ...` at the lexer's current position. -/
def eatToken (s : PState) (tt : TokenType) : Except CalcError PState :=
  if s.cur.type = tt then
    match nextToken s.chars s.pos with
    | .error e => .error e
    | .ok (t, rest, q) => .ok ⟨rest, q, t, s.vars⟩
  else
    .error (.synErr (typeName tt) s.pos)

mutual

/-- `Parser.factor : NOT factor | VAR | LPAREN expr_OR RPAREN`. -/
def pFactor : Nat → PState → Except CalcError (AST × PState)
  | 0, _ => .error .noFuel
  | fuel + 1, s =>
    match s.cur.type with
    | .notT => do
      let s1 ← eatToken s .notT
      let (e, s2) ← pFactor fuel s1
      .ok (.unary e, s2)
    | .varT => do
      let name := s.cur.value
      let s1 ← eatToken s .varT
      let (id, vars2) := setdefault s1.vars name
      .ok (.varA name id, ⟨s1.chars, s1.pos, s1.cur, vars2⟩)
    | .lparen => do
      let s1 ← eatToken s .lparen
      let (node, s2) ← pExprOR fuel s1
      let s3 ← eatToken s2 .rparen
      .ok (node, s3)
    | _ => .error (.synErr "factor" s.pos)

/-- The `while` loop of `Parser.expr_AND`, folding left-associatively. -/
def pAndLoop : Nat → AST → PState → Except CalcError (AST × PState)
  | 0, _, _ => .error .noFuel
  | fuel + 1, node, s =>
    if s.cur.type = .andT then do
      let s1 ← eatToken s .andT
      let (r, s2) ← pFactor fuel s1
      pAndLoop fuel (.binary .andB node r) s2
    else
      .ok (node, s)

/-- `Parser.expr_AND : factor (AND factor)*`. -/
def pExprAND : Nat → PState → Except CalcError (AST × PState)
  | 0, _ => .error .noFuel
  | fuel + 1, s => do
    let (node, s1) ← pFactor fuel s
    pAndLoop fuel node s1

/-- The `while` loop of `Parser.expr_XOR`. -/
def pXorLoop : Nat → AST → PState → Except CalcError (AST × PState)
  | 0, _, _ => .error .noFuel
  | fuel + 1, node, s =>
    if s.cur.type = .xorT then do
      let s1 ← eatToken s .xorT
      let (r, s2) ← pExprAND fuel s1
      pXorLoop fuel (.binary .xorB node r) s2
    else
      .ok (node, s)

/-- `Parser.expr_XOR : expr_AND (XOR expr_AND)*`. -/
def pExprXOR : Nat → PState → Except CalcError (AST × PState)
  | 0, _ => .error .noFuel
  | fuel + 1, s => do
    let (node, s1) ← pExprAND fuel s
    pXorLoop fuel node s1

/-- The `while` loop of `Parser.expr_OR`. -/
def pOrLoop : Nat → AST → PState → Except CalcError (AST × PState)
  | 0, _, _ => .error .noFuel
  | fuel + 1, node, s =>
    if s.cur.type = .orT then do
      let s1 ← eatToken s .orT
      let (r, s2) ← pExprXOR fuel s1
      pOrLoop fuel (.binary .orB node r) s2
    else
      .ok (node, s)

/-- `Parser.expr_OR : expr_XOR (OR expr_XOR)*`. -/
def pExprOR : Nat → PState → Except CalcError (AST × PState)
  | 0, _ => .error .noFuel
  | fuel + 1, s => do
    let (node, s1) ← pExprXOR fuel s
    pOrLoop fuel node s1

end

/-- `Parser.parse` on a whole input: fetch the first lookahead token
(`Parser.__init__`), run `expr_OR`, then eat EOF (`Parser.expr`).  Returns
the tree and the variable registry's keys in insertion order. -/
def parseText (text : String) : Except CalcError (AST × List String) :=
  match nextToken text.data 0 with
  | .error e => .error e
  | .ok (t, rest, q) =>
    match pExprOR (5 * (text.data.length + 2)) ⟨rest, q, t, []⟩ with
    | .error e => .error e
    | .ok (node, s1) =>
      match eatToken s1 .eof with
      | .error e => .error e
      | .ok s2 => .ok (node, s2.vars)

/-- The `visit` closure of `Calculator.expr` (verbose label generation).
Returns the "ref" string for the node (its literal name for a leaf, a
bracketed overall index for an internal node) and the grown label list.
The f-string evaluates `visit(node.left)` before `visit(node.right)`, and
the bracketed index is `len(exprs)` after the node's own label is
appended — so it counts the initial variable labels too. -/
def labelVisit : AST → List String → String × List String
  | .binary op l r, acc =>
    let pl := labelVisit l acc
    let pr := labelVisit r pl.2
    let acc2 := pr.2 ++ [pl.1 ++ " " ++ opSym op ++ " " ++ pr.1]
    ("[" ++ toString acc2.length ++ "]", acc2)
  | .unary e, acc =>
    let pe := labelVisit e acc
    let acc2 := pe.2 ++ ["! " ++ pe.1]
    ("[" ++ toString acc2.length ++ "]", acc2)
  | .varA name _, acc => (name, acc)

/-- The label list of `Calculator.expr`: the variable names, then (verbose)
the internal-node labels — duplicating the whole list when no internal
node was appended — or (non-verbose) the single `[result]` label. -/
def calcLabels (varNames : List String) (verbose : Bool) (tree : AST) : List String :=
  if verbose then
    let exprs2 := (labelVisit tree varNames).2
    if varNames.length = exprs2.length then exprs2 ++ exprs2 else exprs2
  else
    varNames ++ ["[result]"]

/-- `Calculator.expr`: the 1-based display indices and the labels. -/
def calcExpr (varNames : List String) (verbose : Bool) (tree : AST) :
    List Nat × List String :=
  let exprs := calcLabels varNames verbose tree
  (List.range' 1 exprs.length, exprs)

/-- `node.operator(a, b)` for a binary node; the first argument is the value
of the right child in the code (`visit(node.right)` is evaluated first). -/
def applyOp : BOp → Bool → Bool → Bool
  | .andB, a, b => a && b
  | .xorB, a, b => xor a b
  | .orB, a, b => a || b

/-- The `visit` closure of `Calculator.result_iterator`.  Returns the list
of sub-results appended in verbose mode — for a binary node the arguments
are evaluated right child first, so the right subtree's results precede
the left subtree's — and the node's own value. -/
def visitResults (values : List Bool) : AST → List Bool × Bool
  | .binary op l r =>
    let pr := visitResults values r
    let pl := visitResults values l
    let v := applyOp op pr.2 pl.2
    (pr.1 ++ pl.1 ++ [v], v)
  | .unary e =>
    let pe := visitResults values e
    (pe.1 ++ [!pe.2], !pe.2)
  | .varA _ id => ([], values.getD id false)

/-- The value of the whole tree under an assignment (`visit(self.tree)`). -/
def evalAST (values : List Bool) (t : AST) : Bool :=
  (visitResults values t).2

/-- One row's `results` list: the verbose sub-results, with the root value
appended when non-verbose or when nothing was collected. -/
def resultsRow (verbose : Bool) (values : List Bool) (t : AST) : List Bool :=
  let p := visitResults values t
  if verbose then (if p.1 = [] then [p.2] else p.1) else [p.2]

/-- `bool((mask >> i) & 1)`. -/
def maskBit (mask i : Nat) : Bool :=
  decide ((mask >>> i) % 2 = 1)

/-- `values = [bool((mask >> i) & 1) for i in range(n)]`. -/
def assignmentOfMask (n mask : Nat) : List Bool :=
  (List.range n).map (fun i => maskBit mask i)

/-- `Calculator.result_iterator`: for each `mask` in `range(1 << n)` in
ascending order, the assignment row and its results row. -/
def resultAll (verbose : Bool) (n : Nat) (tree : AST) :
    List (List Bool × List Bool) :=
  (List.range (2 ^ n)).map
    (fun mask => (assignmentOfMask n mask, resultsRow verbose (assignmentOfMask n mask) tree))

/-- The tree the parser builds for `"a & b | !a"`. -/
def tOrAndNot : AST :=
  .binary .orB (.binary .andB (.varA "a" 0) (.varA "b" 1)) (.unary (.varA "a" 0))

/-- The tree for the other grouping `a & (b | (!a))` of the same input. -/
def tAndOrNot : AST :=
  .binary .andB (.varA "a" 0) (.binary .orB (.varA "b" 1) (.unary (.varA "a" 0)))

/-- The tree the parser builds for `"a & b & c"`. -/
def tAndAnd : AST :=
  .binary .andB (.binary .andB (.varA "a" 0) (.varA "b" 1)) (.varA "c" 2)

/-- Left-to-right match of `pat` against the start of a character list. -/
def begMatch : List Char → List Char → Bool
  | [], _ => true
  | _ :: _, [] => false
  | a :: as, b :: bs => a == b && begMatch as bs

/-- Whether `pat` occurs as a contiguous segment of a character list. -/
def containsSeg (pat : List Char) : List Char → Bool
  | [] => begMatch pat []
  | c :: cs => begMatch pat (c :: cs) || containsSeg pat cs

theorem labelVisit_length (t : AST) : ∀ acc : List String,
    ((labelVisit t acc).2).length = acc.length + internalCount t := by
  induction t with
  | binary op l r ihl ihr =>
    intro acc
    simp only [labelVisit, List.length_append, List.length_cons, List.length_nil,
      ihl, ihr, internalCount]
    omega
  | unary e ih =>
    intro acc
    simp only [labelVisit, List.length_append, List.length_cons, List.length_nil,
      ih, internalCount]
    omega
  | varA name id =>
    intro acc
    simp [labelVisit, internalCount]

theorem visitResults_fst_getLast (values : List Bool) (t : AST) :
    (visitResults values t).1 = [] ∨
      (visitResults values t).1.getLast? = some (visitResults values t).2 := by
  induction t with
  | binary op l r ihl ihr =>
    right
    simp only [visitResults]
    rw [List.getLast?_concat]
  | unary e ih =>
    right
    simp only [visitResults]
    rw [List.getLast?_concat]
  | varA name id =>
    left
    rfl

theorem singleTok_type_ne_eof (c : Char) : (singleTok c).type ≠ .eof := by
  unfold singleTok
  split <;> simp

theorem lexVar_fst_le (cs : List Char) : (lexVar cs).1.length ≤ cs.length := by
  induction cs with
  | nil => simp [lexVar]
  | cons c cs ih =>
    by_cases h : isAlnumCh c = true
    · simp only [lexVar, h, if_true, List.length_cons]
      omega
    · simp [lexVar, h]

theorem lexVar_snd_len (cs : List Char) :
    (lexVar cs).2.length = cs.length - (lexVar cs).1.length := by
  induction cs with
  | nil => simp [lexVar]
  | cons c cs ih =>
    by_cases h : isAlnumCh c = true
    · simp only [lexVar, h, if_true, List.length_cons]
      omega
    · simp [lexVar, h]

theorem lexVar_getD (cs : List Char) (m : Nat) :
    (lexVar cs).2.getD m ' ' = cs.getD ((lexVar cs).1.length + m) ' ' := by
  induction cs generalizing m with
  | nil => simp [lexVar]
  | cons c cs ih =>
    by_cases h : isAlnumCh c = true
    · simp only [lexVar, h, if_true, List.length_cons]
      have heq : (lexVar cs).1.length + 1 + m = ((lexVar cs).1.length + m) + 1 := by omega
      rw [heq, List.getD_cons_succ]
      exact ih m
    · simp [lexVar, h]

theorem lexVar_alnum (cs : List Char) : ∀ j, j < (lexVar cs).1.length →
    isAlnumCh (cs.getD j ' ') = true := by
  induction cs with
  | nil => simp [lexVar]
  | cons c cs ih =>
    intro j hj
    by_cases h : isAlnumCh c = true
    · simp only [lexVar, h, if_true, List.length_cons] at hj
      cases j with
      | zero => simpa using h
      | succ j' =>
        rw [List.getD_cons_succ]
        exact ih j' (by omega)
    · simp [lexVar, h] at hj

theorem lexVar_cons_alnum (c : Char) (cs : List Char) (h : isAlnumCh c = true) :
    (lexVar (c :: cs)).1.length = (lexVar cs).1.length + 1 := by
  simp [lexVar, h]

theorem nextToken_err (cs : List Char) : ∀ (p : Nat) (e : CalcError),
    nextToken cs p = .error e →
    ∃ k c, e = .lexErr c (p + k) ∧ k < cs.length ∧ cs.getD k ' ' = c ∧
      badCh c = true := by
  induction cs with
  | nil =>
    intro p e h
    simp [nextToken] at h
  | cons c cs ih =>
    intro p e h
    by_cases hsp : isSpaceCh c = true
    · simp only [nextToken, hsp, if_true] at h
      obtain ⟨k, c', he, hk, hg, hb⟩ := ih (p + 1) e h
      refine ⟨k + 1, c', ?_, ?_, ?_, hb⟩
      · rw [he]
        congr 1
        omega
      · simp only [List.length_cons]
        omega
      · rw [List.getD_cons_succ]
        exact hg
    · by_cases hsg : isSingleTok c = true
      · simp [nextToken, hsp, hsg] at h
      · by_cases hal : isAlnumCh c = true
        · simp [nextToken, hsp, hsg, hal] at h
        · rw [Bool.not_eq_true] at hsp hsg hal
          simp only [nextToken, hsp, hsg, hal, Bool.false_eq_true, if_false,
            Except.error.injEq] at h
          refine ⟨0, c, ?_, ?_, ?_, ?_⟩
          · rw [← h, Nat.add_zero]
          · simp
          · rfl
          · simp [badCh, hsp, hsg, hal]

theorem nextToken_ok (cs : List Char) : ∀ (p : Nat) (t : Token) (rest : List Char) (q : Nat),
    nextToken cs p = .ok (t, rest, q) →
    ∃ k, q = p + k ∧ k ≤ cs.length ∧ rest.length = cs.length - k ∧
      (∀ m, rest.getD m ' ' = cs.getD (k + m) ' ') ∧
      (∀ j, j < k → badCh (cs.getD j ' ') = false) ∧
      (cs ≠ [] → 1 ≤ k) ∧
      (t.type = .eof → rest = []) := by
  induction cs with
  | nil =>
    intro p t rest q h
    simp only [nextToken, Except.ok.injEq, Prod.mk.injEq] at h
    obtain ⟨-, hrest, hq⟩ := h
    exact ⟨0, by omega, by simp, by rw [← hrest]; rfl,
      by intro m; rw [← hrest]; rfl, by intro j hj; omega,
      by intro hne; exact absurd rfl hne, fun _ => hrest.symm⟩
  | cons c cs ih =>
    intro p t rest q h
    by_cases hsp : isSpaceCh c = true
    · simp only [nextToken, hsp, if_true] at h
      obtain ⟨k, hq, hkle, hlen, hgetD, hgood, _, heof⟩ := ih (p + 1) t rest q h
      refine ⟨k + 1, by omega, by simp only [List.length_cons]; omega,
        by simp only [List.length_cons]; omega, ?_, ?_, fun _ => by omega, heof⟩
      · intro m
        have heq : k + 1 + m = (k + m) + 1 := by omega
        rw [heq, List.getD_cons_succ]
        exact hgetD m
      · intro j hj
        cases j with
        | zero => simp [badCh, hsp]
        | succ j' =>
          rw [List.getD_cons_succ]
          exact hgood j' (by omega)
    · by_cases hsg : isSingleTok c = true
      · simp only [nextToken, hsp, Bool.false_eq_true, if_false, hsg, if_true,
          Except.ok.injEq, Prod.mk.injEq] at h
        obtain ⟨ht, hrest, hq⟩ := h
        refine ⟨1, by omega, by simp, by simp only [List.length_cons]; rw [← hrest]; omega,
          ?_, ?_, fun _ => le_refl 1, ?_⟩
        · intro m
          rw [← hrest]
          have heq : 1 + m = m + 1 := by omega
          rw [heq, List.getD_cons_succ]
        · intro j hj
          interval_cases j
          simp [badCh, hsg]
        · intro he
          rw [← ht] at he
          exact absurd he (singleTok_type_ne_eof c)
      · by_cases hal : isAlnumCh c = true
        · simp only [nextToken, hsp, hsg, hal, Bool.false_eq_true, if_false, if_true,
            Except.ok.injEq, Prod.mk.injEq] at h
          obtain ⟨ht, hrest, hq⟩ := h
          refine ⟨(lexVar (c :: cs)).1.length, by omega, lexVar_fst_le (c :: cs),
            by rw [← hrest]; exact lexVar_snd_len (c :: cs), ?_, ?_, ?_, ?_⟩
          · intro m
            rw [← hrest]
            exact lexVar_getD (c :: cs) m
          · intro j hj
            have halj := lexVar_alnum (c :: cs) j hj
            unfold badCh
            rw [halj]
            simp
          · intro _
            rw [lexVar_cons_alnum c cs hal]
            omega
          · intro he
            rw [← ht] at he
            simp at he
        · rw [Bool.not_eq_true] at hsp hsg hal
          simp [nextToken, hsp, hsg, hal] at h

theorem tokenizeAll_bad : ∀ (fuel : Nat) (cs : List Char) (p i : Nat),
    cs.length < fuel → i < cs.length → badCh (cs.getD i ' ') = true →
    ∃ j c, tokenizeAll fuel cs p = .error (.lexErr c (p + j)) ∧
      j < cs.length ∧ cs.getD j ' ' = c ∧ badCh c = true := by
  intro fuel
  induction fuel with
  | zero =>
    intro cs p i hfuel
    omega
  | succ f ih =>
    intro cs p i hfuel hi hbad
    cases hnt : nextToken cs p with
    | error e =>
      obtain ⟨k, c', he, hk, hg, hb⟩ := nextToken_err cs p e hnt
      refine ⟨k, c', ?_, hk, hg, hb⟩
      rw [← he]
      simp only [tokenizeAll, hnt]
    | ok v =>
      obtain ⟨t, rest, q⟩ := v
      obtain ⟨k, hq, hkle, hlen, hgetD, hgood, hpos, heof⟩ := nextToken_ok cs p t rest q hnt
      have hki : k ≤ i := by
        by_contra hlt
        push_neg at hlt
        have hgi := hgood i hlt
        rw [hbad] at hgi
        exact Bool.noConfusion hgi
      have hrestbad : badCh (rest.getD (i - k) ' ') = true := by
        rw [hgetD (i - k)]
        have heq : k + (i - k) = i := by omega
        rw [heq]
        exact hbad
      have hrlen : i - k < rest.length := by omega
      have hne : t.type ≠ .eof := by
        intro h'
        rw [heof h'] at hrlen
        simp at hrlen
      have hcs : cs ≠ [] := by
        intro h'
        rw [h'] at hi
        simp at hi
      have hposk : 1 ≤ k := hpos hcs
      obtain ⟨j', c', herr, hj', hg', hb'⟩ := ih rest q (i - k) (by omega) hrlen hrestbad
      have hstep : tokenizeAll (f + 1) cs p = (tokenizeAll f rest q).map (fun ts => t :: ts) := by
        simp only [tokenizeAll, hnt]
        simp [hne]
      refine ⟨k + j', c', ?_, by omega, ?_, hb'⟩
      · rw [hstep, herr]
        simp only [Except.map]
        rw [hq, Nat.add_assoc]
      · rw [← hg']
        rw [hgetD j']

/-- C1: the claim that verbose `results[i]` is the value of the node that
`labels[i]` describes fails on the code.  For `"a & b | !a"` the labels
after the variables are `["a & b", "! a", "[3] | [4]"]` (left subtree
first), but the results row for `a=1, b=1` is `[0, 1, 1]` (right subtree
first, because `node.operator(visit(node.right), visit(node.left))`
evaluates the right child before the left): position 0 holds `! a`'s
value `0`, not the value `1` of the node labelled `"a & b"`. -/
theorem claim1_bug :
    parseText "a & b | !a" = .ok (tOrAndNot, ["a", "b"]) ∧
    calcLabels ["a", "b"] true tOrAndNot = ["a", "b", "a & b", "! a", "[3] | [4]"] ∧
    resultsRow true [true, true] tOrAndNot = [false, true, true] ∧
    evalAST [true, true] (.binary .andB (.varA "a" 0) (.varA "b" 1)) = true ∧
    (resultsRow true [true, true] tOrAndNot).getD 0 true ≠
      evalAST [true, true] (.binary .andB (.varA "a" 0) (.varA "b" 1)) := by
  refine ⟨rfl, rfl, rfl, rfl, by decide⟩

/-- C2: `evaluate_all` yields `2^N` rows; the row at index `mask` is the
assignment of `mask` (so rows are in ascending mask order), and bit `i`
of that assignment is `(mask >> i) & 1`, i.e. `mask / 2^i % 2`. -/
theorem claim2 (verbose : Bool) (n : Nat) (t : AST) (mask i : Nat)
    (hm : mask < 2 ^ n) (hi : i < n) :
    (resultAll verbose n t).length = 2 ^ n ∧
    (resultAll verbose n t)[mask]? =
      some (assignmentOfMask n mask, resultsRow verbose (assignmentOfMask n mask) t) ∧
    (assignmentOfMask n mask)[i]? = some (decide (mask / 2 ^ i % 2 = 1)) := by
  refine ⟨?_, ?_, ?_⟩
  · simp [resultAll]
  · simp [resultAll, List.getElem?_map, List.getElem?_range, hm]
  · simp [assignmentOfMask, List.getElem?_map, List.getElem?_range, hi, maskBit,
      Nat.shiftRight_eq_div_pow]

theorem claim2_witness :
    3 < 2 ^ 2 ∧ 1 < 2 ∧
    ((resultAll true 2 tAndOrNot).length = 2 ^ 2 ∧
     (resultAll true 2 tAndOrNot)[3]? =
       some (assignmentOfMask 2 3, resultsRow true (assignmentOfMask 2 3) tAndOrNot) ∧
     (assignmentOfMask 2 3)[1]? = some (decide (3 / 2 ^ 1 % 2 = 1))) :=
  ⟨by decide, by decide, claim2 true 2 tAndOrNot 3 1 (by decide) (by decide)⟩

/-- C3 counterexample: the bracketed reference emitted for an internal node
is NOT a count of internal-node labels alone.  For `"a & (b | !a)"` (two
variables) the first internal node `! a` is referenced as `[3]`, not `[1]`:
the actual labels differ from what the claim predicts. -/
theorem claim3_cex :
    parseText "a & (b | !a)" = .ok (tAndOrNot, ["a", "b"]) ∧
    calcLabels ["a", "b"] true tAndOrNot = ["a", "b", "! a", "b | [3]", "a & [4]"] ∧
    calcLabels ["a", "b"] true tAndOrNot ≠ ["a", "b", "! a", "b | [1]", "a & [2]"] := by
  refine ⟨rfl, rfl, by decide⟩

/-- C3 (amended): the bracketed reference `[k]` emitted for an internal node
is its 1-based position in the overall label list: the length of the label
list right after the node's own label is appended, which equals the number
of labels the traversal started from (the variable names) plus the node's
1-based index among internal-node labels in emission order. -/
theorem claim3_thm (acc : List String) (op : BOp) (l r e : AST) :
    ((labelVisit (.binary op l r) acc).1 =
      "[" ++ toString ((labelVisit (.binary op l r) acc).2.length) ++ "]") ∧
    ((labelVisit (.unary e) acc).1 =
      "[" ++ toString ((labelVisit (.unary e) acc).2.length) ++ "]") ∧
    ((labelVisit (.binary op l r) acc).2.length =
      acc.length + internalCount (.binary op l r)) ∧
    ((labelVisit (.unary e) acc).2.length = acc.length + internalCount (.unary e)) :=
  ⟨rfl, rfl, labelVisit_length (.binary op l r) acc, labelVisit_length (.unary e) acc⟩

/-- C4: for `"a & (b | !a)"`, the verbose labels after the two variable
columns are `["! a", "b | [3]", "a & [4]"]`, and the row for `a=1, b=1`
(mask 3) carries the results `[0, 1, 1]` for those three labels. -/
theorem claim4 :
    parseText "a & (b | !a)" = .ok (tAndOrNot, ["a", "b"]) ∧
    (calcLabels ["a", "b"] true tAndOrNot).drop 2 = ["! a", "b | [3]", "a & [4]"] ∧
    (resultAll true 2 tAndOrNot)[3]? = some ([true, true], [false, true, true]) := by
  refine ⟨rfl, rfl, rfl⟩

/-- C5: `"a & b | !a"` parses to the `(a & b) | (!a)` grouping: its value
under every assignment is `(a && b) || !a`, and at `a=0, b=0` it differs
from the `a & (b | (!a))` grouping. -/
theorem claim5 :
    parseText "a & b | !a" = .ok (tOrAndNot, ["a", "b"]) ∧
    (∀ values : List Bool,
      evalAST values tOrAndNot =
        ((values.getD 0 false && values.getD 1 false) || !(values.getD 0 false))) ∧
    evalAST [false, false] tOrAndNot ≠ evalAST [false, false] tAndOrNot := by
  refine ⟨rfl, ?_, by decide⟩
  intro values
  simp only [evalAST, tOrAndNot, visitResults, applyOp]
  generalize values.getD 0 false = a
  generalize values.getD 1 false = b
  cases a <;> cases b <;> rfl

/-- C6: `"a & b & c"` folds left-associatively into `(a & b) & c`: its value
under every assignment is `(a && b) && c`, and its verbose output has
exactly 2 internal-node labels after the 3 variable columns. -/
theorem claim6 :
    parseText "a & b & c" = .ok (tAndAnd, ["a", "b", "c"]) ∧
    (∀ values : List Bool,
      evalAST values tAndAnd =
        ((values.getD 0 false && values.getD 1 false) && values.getD 2 false)) ∧
    (calcLabels ["a", "b", "c"] true tAndAnd).drop 3 = ["a & b", "[4] & c"] ∧
    ((calcLabels ["a", "b", "c"] true tAndAnd).drop 3).length = 2 := by
  refine ⟨rfl, ?_, rfl, rfl⟩
  intro values
  simp only [evalAST, tAndAnd, visitResults, applyOp]
  generalize values.getD 0 false = a
  generalize values.getD 1 false = b
  generalize values.getD 2 false = c
  cases a <;> cases b <;> cases c <;> rfl

/-- C7: in every row, the single non-verbose result is the root's value,
which is also the last element of the verbose results row. -/
theorem claim7 (t : AST) (values : List Bool) :
    resultsRow false values t = [evalAST values t] ∧
    (resultsRow true values t).getLast? = some (evalAST values t) := by
  constructor
  · simp [resultsRow, evalAST]
  · by_cases hE : (visitResults values t).1 = []
    · simp [resultsRow, evalAST, hE]
    · simp only [resultsRow, evalAST, if_true, hE, if_false]
      rcases visitResults_fst_getLast values t with h | h
      · exact absurd h hE
      · exact h

/-- C8 counterexample: for `"a &"` the parser raises at the EOF where a
factor was expected, but the raised error carries only the expected kind
(`factor`) and the lexer offset (3) — its message does not contain the
actual kind (`EOF`) at all, contrary to the claim. -/
theorem claim8_cex :
    parseText "a &" = .error (.synErr "factor" 3) ∧
    (CalcError.synErr "factor" 3).message = "Invalid syntax, expected `factor` in pos=3\n" ∧
    containsSeg "EOF".data (CalcError.synErr "factor" 3).message.data = false := by
  refine ⟨rfl, rfl, by decide⟩

/-- C8 (amended): parsing fails with a syntax error carrying the expected
kind and the lexer offset (but not the actual kind) when a token does not
match the current grammar rule: `"a &"` (EOF where a factor was expected),
`"(a"` (missing closing parenthesis, expected `)`), and `"a b"` (trailing
token where EOF was expected); no tree is produced in any of these cases. -/
theorem claim8_thm :
    parseText "a &" = .error (.synErr "factor" 3) ∧
    parseText "(a" = .error (.synErr ")" 2) ∧
    parseText "a b" = .error (.synErr "EOF" 3) :=
  ⟨rfl, rfl, rfl⟩

/-- C9: any input containing a character that is not whitespace, not a
single-character token and not alphanumeric makes the lexer fail with an
invalid-character error carrying an offending character and its offset. -/
theorem claim9 (text : String) (i : Nat) (hi : i < text.data.length)
    (hbad : badCh (text.data.getD i ' ') = true) :
    ∃ j c, tokenizeText text = .error (.lexErr c j) ∧ j < text.data.length ∧
      text.data.getD j ' ' = c ∧ badCh c = true := by
  obtain ⟨j, c, herr, hj, hg, hb⟩ :=
    tokenizeAll_bad (text.data.length + 1) text.data 0 i (by omega) hi hbad
  refine ⟨j, c, ?_, hj, hg, hb⟩
  rw [tokenizeText, herr, Nat.zero_add]

theorem claim9_witness :
    2 < ("a # b" : String).data.length ∧
    badCh (("a # b" : String).data.getD 2 ' ') = true ∧
    (∃ j c, tokenizeText "a # b" = .error (.lexErr c j) ∧
      j < ("a # b" : String).data.length ∧
      ("a # b" : String).data.getD j ' ' = c ∧ badCh c = true) :=
  ⟨by decide, by decide, claim9 "a # b" 2 (by decide) (by decide)⟩

/-- C10 counterexample: for the bare variable `"a"`, verbose describe
duplicates the variable-name list (`["a", "a"]`) and the verbose results
row has exactly one boolean — but the label list (length 2) is NOT strictly
longer than the number of variables plus the results per row (1 + 1). -/
theorem claim10_cex :
    parseText "a" = .ok (.varA "a" 0, ["a"]) ∧
    calcLabels ["a"] true (.varA "a" 0) = ["a", "a"] ∧
    resultsRow true [false] (.varA "a" 0) = [false] ∧
    ¬ ((calcLabels ["a"] true (.varA "a" 0)).length >
        (["a"] : List String).length + (resultsRow true [false] (.varA "a" 0)).length) := by
  refine ⟨rfl, rfl, rfl, by decide⟩

/-- C10 (amended): for a bare variable, verbose describe returns the
variable-name list duplicated (two labels for the one variable) and each
verbose results row contains exactly one boolean, so the label list length
equals the number of variables plus the results per row. -/
theorem claim10_thm (name : String) (values : List Bool) :
    calcLabels [name] true (.varA name 0) = [name, name] ∧
    resultsRow true values (.varA name 0) = [values.getD 0 false] ∧
    (calcLabels [name] true (.varA name 0)).length =
      [name].length + (resultsRow true values (.varA name 0)).length := by
  refine ⟨?_, ?_, ?_⟩ <;>
    simp [calcLabels, labelVisit, resultsRow, visitResults]
